import Mathlib

/-!
Verification of the caplin CAN driver and timer engine (source/lib/can.c and
source/lib/timer.c) against its natural-language specification.

The C code is shallowly embedded: machine integers become Nat with explicit
reduction modulo 2 ^ 32 or 2 ^ 64 where C unsigned arithmetic wraps, the
fixed 8-byte CAN payload buffer becomes a function from Fin 8 to Nat, and
interactions with the operating system (socket calls, the system clock,
memory allocation) become explicit parameters of the embedded functions.
-/

/-! ## Machine arithmetic -/

/-- Modulus of the C type uint32_t. -/
def UINT32_MOD : Nat := 2 ^ 32

/-- Modulus of the C type uint64_t. -/
def UINT64_MOD : Nat := 2 ^ 64

/-- Wrapping subtraction of two uint64_t values, as in the C expressions
UtilSystemTime() - canStartTime and now - aTimer->startTime. -/
def sub64 (a b : Nat) : Nat :=
  (a % UINT64_MOD + (UINT64_MOD - b % UINT64_MOD)) % UINT64_MOD

/-- On in-range arguments with no underflow, sub64 is plain subtraction. -/
theorem sub64_eq_sub (a b : Nat) (ha : a < UINT64_MOD) (hba : b ≤ a) :
    sub64 a b = a - b := by
  unfold sub64 UINT64_MOD at *
  omega

/-! ## CAN data model, from source/lib/can.h and linux/can.h -/

/-- Maximum number of data bytes in a classic CAN message (can.h). -/
def CAN_DATA_LEN_MAX : Nat := 8

/-- Extended frame format flag bit of the SocketCAN identifier field. -/
def CAN_EFF_FLAG : Nat := 0x80000000

/-- Remote transmission request flag bit of the SocketCAN identifier field. -/
def CAN_RTR_FLAG : Nat := 0x40000000

/-- Error frame flag bit of the SocketCAN identifier field. -/
def CAN_ERR_FLAG : Nat := 0x20000000

/-- The C struct tCanMsg from can.h: identifier, extended flag, payload
length, fixed 8-byte payload buffer, microsecond timestamp. -/
structure tCanMsg where
  id : Nat
  ext : Bool
  len : Nat
  data : Fin 8 → Nat
  timestamp : Nat

/-- The kernel struct can_frame as used by can.c: the identifier field with
its embedded flag bits, the data length code, and the 8-byte payload. -/
structure can_frame where
  can_id : Nat
  can_dlc : Nat
  data : Fin 8 → Nat

/-- Wire-frame construction performed by CanTransmit (can.c, lines 296-306):
the extended flag is folded into the identifier as the CAN_EFF_FLAG bit, the
data length code is the payload length clamped to CAN_DATA_LEN_MAX, and that
many data bytes are copied.  Bytes of the wire buffer beyond the data length
code are left uninitialized in C; the parameter uninit supplies them here. -/
def canTxEncode (msg : tCanMsg) (uninit : Fin 8 → Nat) : can_frame :=
  let cid := if msg.ext then msg.id ||| CAN_EFF_FLAG else msg.id
  let dlc := if msg.len ≤ CAN_DATA_LEN_MAX then msg.len else CAN_DATA_LEN_MAX
  { can_id := cid
    can_dlc := dlc
    data := fun i => if (i : Nat) < dlc then msg.data i else uninit i }

/-- Receive-path processing of one wire frame by CanEventThread (can.c,
lines 391-417): remote and error frames are dropped (result none, no
callback); otherwise the extended flag is recovered from the CAN_EFF_FLAG
bit, that bit is stripped from the identifier (bitwise and with the
complement of CAN_EFF_FLAG on uint32_t, that is with 0x7FFFFFFF), the data
length code and that many data bytes are copied.  Bytes of the local message
buffer beyond the data length code are whatever the buffer held before; the
parameter junk supplies them.  The timestamp ts is now minus connect time. -/
def canRxDecode (f : can_frame) (junk : Fin 8 → Nat) (ts : Nat) : Option tCanMsg :=
  if f.can_id &&& (CAN_RTR_FLAG ||| CAN_ERR_FLAG) ≠ 0 then
    none
  else
    some
      { id := f.can_id &&& 0x7FFFFFFF
        ext := f.can_id &&& CAN_EFF_FLAG != 0
        len := f.can_dlc
        data := fun i => if (i : Nat) < f.can_dlc then f.data i else junk i
        timestamp := ts }

/-! ### Bit-level helper lemmas for the round trip -/

/-- A conjunction of bits is zero when the two operands share no set bit. -/
theorem land_eq_zero_of_testBit (a b : Nat)
    (h : ∀ i, a.testBit i = true → b.testBit i = false) : a &&& b = 0 := by
  apply Nat.eq_of_testBit_eq
  intro i
  rw [Nat.testBit_and, Nat.zero_testBit]
  cases ha : a.testBit i with
  | false => simp
  | true => simp [h i ha]

/-- Bits of an identifier below 2 ^ 29 are clear at position 29 and above. -/
theorem id_testBit_high (id i : Nat) (hid : id < 2 ^ 29) (hi : 29 ≤ i) :
    id.testBit i = false :=
  Nat.testBit_lt_two_pow (lt_of_lt_of_le hid (Nat.pow_le_pow_right (by norm_num) hi))

/-- Oring CAN_EFF_FLAG onto a 29-bit identifier leaves the remote and error
flag bits clear, so the receive path does not drop the frame. -/
theorem encode_not_rtr_err (id : Nat) (hid : id < 2 ^ 29) :
    (id ||| CAN_EFF_FLAG) &&& (CAN_RTR_FLAG ||| CAN_ERR_FLAG) = 0 := by
  apply land_eq_zero_of_testBit
  intro i hi
  rw [Nat.testBit_or] at hi
  have heff : CAN_EFF_FLAG = 2 ^ 31 := by norm_num [CAN_EFF_FLAG]
  have hrtr : CAN_RTR_FLAG = 2 ^ 30 := by norm_num [CAN_RTR_FLAG]
  have herr : CAN_ERR_FLAG = 2 ^ 29 := by norm_num [CAN_ERR_FLAG]
  rw [Nat.testBit_or, hrtr, herr, Nat.testBit_two_pow, Nat.testBit_two_pow]
  rcases Nat.lt_or_ge i 29 with hlt | hge
  · simp; omega
  · have : id.testBit i = false := id_testBit_high id i hid hge
    rw [this, heff, Nat.testBit_two_pow] at hi
    simp at hi
    simp [← hi]

/-- A bare 29-bit identifier leaves the remote and error flag bits clear. -/
theorem plain_not_rtr_err (id : Nat) (hid : id < 2 ^ 29) :
    id &&& (CAN_RTR_FLAG ||| CAN_ERR_FLAG) = 0 := by
  apply land_eq_zero_of_testBit
  intro i hi
  have hrtr : CAN_RTR_FLAG = 2 ^ 30 := by norm_num [CAN_RTR_FLAG]
  have herr : CAN_ERR_FLAG = 2 ^ 29 := by norm_num [CAN_ERR_FLAG]
  rw [Nat.testBit_or, hrtr, herr, Nat.testBit_two_pow, Nat.testBit_two_pow]
  rcases Nat.lt_or_ge i 29 with hlt | hge
  · simp; omega
  · rw [id_testBit_high id i hid hge] at hi
    exact absurd hi (by simp)

/-- Stripping bit 31 from a 29-bit identifier with the flag bit set recovers
the identifier. -/
theorem strip_eff_of_or (id : Nat) (hid : id < 2 ^ 29) :
    (id ||| CAN_EFF_FLAG) &&& 0x7FFFFFFF = id := by
  apply Nat.eq_of_testBit_eq
  intro i
  have heff : CAN_EFF_FLAG = 2 ^ 31 := by norm_num [CAN_EFF_FLAG]
  have hmask : (0x7FFFFFFF : Nat) = 2 ^ 31 - 1 := by norm_num
  rw [Nat.testBit_and, Nat.testBit_or, hmask, Nat.testBit_two_pow_sub_one, heff,
    Nat.testBit_two_pow]
  rcases Nat.lt_or_ge i 31 with hlt | hge
  · simp [hlt]; omega
  · have h1 : id.testBit i = false := id_testBit_high id i hid (by omega)
    simp [h1, Nat.not_lt.mpr hge]

/-- Stripping bit 31 from a bare 29-bit identifier is the identity. -/
theorem strip_eff_of_plain (id : Nat) (hid : id < 2 ^ 29) :
    id &&& 0x7FFFFFFF = id := by
  apply Nat.eq_of_testBit_eq
  intro i
  have hmask : (0x7FFFFFFF : Nat) = 2 ^ 31 - 1 := by norm_num
  rw [Nat.testBit_and, hmask, Nat.testBit_two_pow_sub_one]
  rcases Nat.lt_or_ge i 31 with hlt | hge
  · simp [hlt]
  · simp [id_testBit_high id i hid (by omega)]

/-- With the flag bit folded in, the extended-flag test of the receive path
comes out true. -/
theorem eff_test_of_or (id : Nat) :
    ((id ||| CAN_EFF_FLAG) &&& CAN_EFF_FLAG != 0) = true := by
  have h31 : ((id ||| CAN_EFF_FLAG) &&& CAN_EFF_FLAG).testBit 31 = true := by
    have heff : CAN_EFF_FLAG = 2 ^ 31 := by norm_num [CAN_EFF_FLAG]
    rw [Nat.testBit_and, Nat.testBit_or, heff, Nat.testBit_two_pow]
    simp
  simp only [bne_iff_ne, ne_eq]
  intro hzero
  rw [hzero, Nat.zero_testBit] at h31
  exact absurd h31 (by simp)

/-- Without the flag bit, a 29-bit identifier has no bit in common with
CAN_EFF_FLAG. -/
theorem eff_land_plain (id : Nat) (hid : id < 2 ^ 29) :
    id &&& CAN_EFF_FLAG = 0 := by
  apply land_eq_zero_of_testBit
  intro i hi
  have heff : CAN_EFF_FLAG = 2 ^ 31 := by norm_num [CAN_EFF_FLAG]
  rw [heff, Nat.testBit_two_pow]
  rcases Nat.lt_or_ge i 29 with hlt | hge
  · simp; omega
  · rw [id_testBit_high id i hid hge] at hi
    exact absurd hi (by simp)

/-- C1: for every valid frame (identifier within the 29-bit range when the
extended flag is set and within the 11-bit range otherwise, length at most
8), encoding the frame to a wire frame as CanTransmit does and decoding that
wire frame as the receive path of CanEventThread does yields a message equal
to the original in id, extended flag, length, and the first len data
bytes. -/
theorem can_frame_roundtrip (msg : tCanMsg) (uninit junk : Fin 8 → Nat) (ts : Nat)
    (hid : if msg.ext then msg.id < 2 ^ 29 else msg.id < 2 ^ 11)
    (hlen : msg.len ≤ 8) :
    ∃ m, canRxDecode (canTxEncode msg uninit) junk ts = some m ∧
      m.id = msg.id ∧ m.ext = msg.ext ∧ m.len = msg.len ∧
      ∀ i : Fin 8, (i : Nat) < msg.len → m.data i = msg.data i := by
  have hdlc : (if msg.len ≤ CAN_DATA_LEN_MAX then msg.len else CAN_DATA_LEN_MAX) =
      msg.len := by
    simp [CAN_DATA_LEN_MAX, hlen]
  have hid29 : msg.id < 2 ^ 29 := by
    cases hext : msg.ext with
    | true => rw [hext] at hid; simpa using hid
    | false =>
      rw [hext] at hid
      simp at hid
      exact hid.trans_le (by norm_num)
  refine ⟨⟨msg.id, msg.ext, msg.len,
    fun i => if (i : Nat) < msg.len then msg.data i else junk i, ts⟩, ?_, rfl, rfl, rfl,
    fun i hi => by simp [hi]⟩
  have hdata : (fun i : Fin 8 => if (i : Nat) < msg.len then
        (if (i : Nat) < msg.len then msg.data i else uninit i) else junk i) =
      (fun i : Fin 8 => if (i : Nat) < msg.len then msg.data i else junk i) := by
    funext i
    by_cases hi : (i : Nat) < msg.len <;> simp [hi]
  cases hext : msg.ext with
  | true =>
    simp only [canTxEncode, canRxDecode, hext, if_true, hdlc]
    rw [if_neg (by simp [encode_not_rtr_err msg.id hid29])]
    simp only [Option.some.injEq, tCanMsg.mk.injEq]
    exact ⟨strip_eff_of_or msg.id hid29, eff_test_of_or msg.id, trivial, hdata, trivial⟩
  | false =>
    simp only [canTxEncode, canRxDecode, hext, if_false, hdlc]
    rw [if_neg (by simp [plain_not_rtr_err msg.id hid29])]
    simp only [Option.some.injEq, tCanMsg.mk.injEq]
    refine ⟨strip_eff_of_plain msg.id hid29, ?_, trivial, hdata, trivial⟩
    simp [eff_land_plain msg.id hid29]

/-- Concrete instance of C1: the frame with id 0x3F1, extended flag set,
length 2 and data bytes 0x00, 0xFF round-trips. -/
theorem can_frame_roundtrip_witness :
    (if true then (0x3F1 : Nat) < 2 ^ 29 else (0x3F1 : Nat) < 2 ^ 11) ∧ (2 : Nat) ≤ 8 ∧
    ∃ m, canRxDecode
        (canTxEncode ⟨0x3F1, true, 2, fun i => if (i : Nat) = 0 then 0x00 else
          if (i : Nat) = 1 then 0xFF else 0, 0⟩ (fun _ => 0)) (fun _ => 0) 77 = some m ∧
      m.id = 0x3F1 ∧ m.ext = true ∧ m.len = 2 ∧
      ∀ i : Fin 8, (i : Nat) < 2 →
        m.data i = (fun i : Fin 8 => if (i : Nat) = 0 then 0x00 else
          if (i : Nat) = 1 then 0xFF else 0) i :=
  ⟨by decide, by decide,
    can_frame_roundtrip
      ⟨0x3F1, true, 2, fun i => if (i : Nat) = 0 then 0x00 else
        if (i : Nat) = 1 then 0xFF else 0, 0⟩
      (fun _ => 0) (fun _ => 0) 77 (by decide) (by decide)⟩

/-! ## Timer engine data model, from source/lib/timer.c -/

/-- The C struct t_timer_node from timer.c, without the intrusive list
pointer: the registry is modelled as a Lean list of nodes.  The callback
function pointer is modelled as an abstract numeric identifier. -/
structure tTimerNode where
  callbackFcn : Nat
  running : Bool
  startTime : Nat
  period_us : Nat
deriving DecidableEq

/-- TimerRestart (timer.c, lines 287-312), acting on one node: the arm time
is advanced by one period (uint64 addition), then if now minus the advanced
arm time (uint64 wrapping subtraction) exceeds the period, the arm time is
clamped to now minus one period, and the running flag is set. -/
def TimerRestart (now : Nat) (t : tTimerNode) : tTimerNode :=
  let s1 := (t.startTime + t.period_us) % UINT64_MOD
  let s2 := if sub64 now s1 > t.period_us then sub64 now t.period_us else s1
  { t with startTime := s2, running := true }

/-- C2: for a timer already started at least once (so that arm time and
period are meaningful and the advanced arm time does not exceed the current
time), TimerRestart advances the arm time by exactly one period, except that
when the elapsed time since the advanced arm time exceeds one period the arm
time is instead set to the current time minus one period; afterwards the
timer is marked running, and its period and callback are unchanged. -/
theorem timerRestart_advances_by_period (t : tTimerNode) (now : Nat)
    (hnow : now < UINT64_MOD) (harm : t.startTime + t.period_us ≤ now) :
    (TimerRestart now t).running = true ∧
    (TimerRestart now t).period_us = t.period_us ∧
    (TimerRestart now t).callbackFcn = t.callbackFcn ∧
    (TimerRestart now t).startTime =
      (if now - (t.startTime + t.period_us) > t.period_us
       then now - t.period_us
       else t.startTime + t.period_us) := by
  have hmod : (t.startTime + t.period_us) % UINT64_MOD = t.startTime + t.period_us :=
    Nat.mod_eq_of_lt (lt_of_le_of_lt harm hnow)
  have h1 : sub64 now (t.startTime + t.period_us) =
      now - (t.startTime + t.period_us) :=
    sub64_eq_sub now _ hnow harm
  have h2 : sub64 now t.period_us = now - t.period_us :=
    sub64_eq_sub now _ hnow (le_trans (Nat.le_add_left _ _) harm)
  unfold TimerRestart
  refine ⟨rfl, rfl, rfl, ?_⟩
  simp only [h1, h2, hmod]

/-- Witness for C2: a timer with period 10 armed at 100, restarted at 115
(within one period of the advanced arm time 110), is re-armed at exactly
110 and running. -/
theorem timerRestart_advances_by_period_witness :
    (115 : Nat) < UINT64_MOD ∧ (100 : Nat) + 10 ≤ 115 ∧
    ((TimerRestart 115 ⟨7, false, 100, 10⟩).running = true ∧
     (TimerRestart 115 ⟨7, false, 100, 10⟩).period_us = 10 ∧
     (TimerRestart 115 ⟨7, false, 100, 10⟩).callbackFcn = 7 ∧
     (TimerRestart 115 ⟨7, false, 100, 10⟩).startTime =
       (if (115 : Nat) - (100 + 10) > 10 then 115 - 10 else 100 + 10)) :=
  ⟨by norm_num [UINT64_MOD], by norm_num,
    timerRestart_advances_by_period ⟨7, false, 100, 10⟩ 115
      (by norm_num [UINT64_MOD]) (by norm_num)⟩

/-- Expiry test applied to each node by TimerPollingThread (timer.c, lines
366-369): the timer is running and now minus its arm time (uint64 wrapping
subtraction) exceeds its period. -/
def timerFires (now : Nat) (t : tTimerNode) : Bool :=
  t.running && decide (sub64 now t.startTime > t.period_us)

/-- One pass of the polling loop of TimerPollingThread (timer.c, lines
356-392): the current time is read once, then every node of the registry is
visited in order and the expiry callback is invoked exactly for the nodes
that pass the expiry test.  The result is the list of nodes whose callback
fires during the pass, in registry order. -/
def TimerPollingPass (now : Nat) (timerList : List tTimerNode) : List tTimerNode :=
  timerList.filter (timerFires now)

/-- C5: in one iteration of the polling loop, taken at a single current time
now, a registered timer fires exactly when it is running and now minus its
arm time exceeds its period; in particular a stopped timer never fires and a
running timer whose elapsed time is at most its period does not fire. -/
theorem timerPollingPass_fires_iff (now : Nat) (timerList : List tTimerNode)
    (t : tTimerNode) (ht : t ∈ timerList) :
    t ∈ TimerPollingPass now timerList ↔
      (t.running = true ∧ sub64 now t.startTime > t.period_us) := by
  unfold TimerPollingPass
  rw [List.mem_filter]
  unfold timerFires
  constructor
  · rintro ⟨-, h⟩
    simp only [Bool.and_eq_true, decide_eq_true_eq] at h
    exact h
  · intro h
    refine ⟨ht, ?_⟩
    simp only [Bool.and_eq_true, decide_eq_true_eq]
    exact h

/-- Witness for C5: with the clock at 100, a registry holding a running
expired timer, a stopped timer, and a running not-yet-expired timer fires
exactly the first. -/
theorem timerPollingPass_fires_iff_witness :
    (⟨1, true, 10, 20⟩ : tTimerNode) ∈
      [(⟨1, true, 10, 20⟩ : tTimerNode), ⟨2, false, 10, 20⟩, ⟨3, true, 90, 20⟩] ∧
    ((⟨1, true, 10, 20⟩ : tTimerNode) ∈
        TimerPollingPass 100 [⟨1, true, 10, 20⟩, ⟨2, false, 10, 20⟩, ⟨3, true, 90, 20⟩] ↔
      ((⟨1, true, 10, 20⟩ : tTimerNode).running = true ∧
        sub64 100 (⟨1, true, 10, 20⟩ : tTimerNode).startTime >
          (⟨1, true, 10, 20⟩ : tTimerNode).period_us)) :=
  ⟨by decide,
    timerPollingPass_fires_iff 100
      [⟨1, true, 10, 20⟩, ⟨2, false, 10, 20⟩, ⟨3, true, 90, 20⟩]
      ⟨1, true, 10, 20⟩ (by decide)⟩

/-- TimerCreate (timer.c, lines 149-191): the callback argument is modelled
as an optional identifier (none standing for NULL) and the success of malloc
as the boolean allocOk.  On success the new node is initialized stopped with
arm time and period zero and is linked at the head of the registry list; on
a NULL callback or allocation failure the result handle is none and the
registry is left untouched. -/
def TimerCreate (callbackFcn : Option Nat) (allocOk : Bool)
    (timerList : List tTimerNode) : Option tTimerNode × List tTimerNode :=
  match callbackFcn with
  | none => (none, timerList)
  | some c =>
    if allocOk then
      let newTimer : tTimerNode := ⟨c, false, 0, 0⟩
      (some newTimer, newTimer :: timerList)
    else
      (none, timerList)

/-- C6: TimerCreate returns a handle to a fresh stopped timer with period
zero and arm time zero holding the given callback, inserted into the
registry, whenever the callback is present and allocation succeeds; it
returns no handle exactly when the callback is absent or allocation fails,
and then the registry is unchanged. -/
theorem timerCreate_spec (callbackFcn : Option Nat) (allocOk : Bool)
    (timerList : List tTimerNode) :
    (∀ c, callbackFcn = some c → allocOk = true →
      TimerCreate callbackFcn allocOk timerList =
        (some ⟨c, false, 0, 0⟩, (⟨c, false, 0, 0⟩ : tTimerNode) :: timerList)) ∧
    (callbackFcn = none ∨ allocOk = false →
      TimerCreate callbackFcn allocOk timerList = (none, timerList)) := by
  constructor
  · rintro c rfl rfl
    simp [TimerCreate]
  · rintro (rfl | rfl)
    · rfl
    · cases callbackFcn <;> simp [TimerCreate]

/-- Witness for C6: creating a timer with callback 5 under successful
allocation yields the fresh stopped node at the head of the registry, and
creating one with an absent callback leaves the registry unchanged. -/
theorem timerCreate_spec_witness :
    (∀ c, some 5 = some c → true = true →
      TimerCreate (some 5) true [] =
        (some ⟨c, false, 0, 0⟩, (⟨c, false, 0, 0⟩ : tTimerNode) :: [])) ∧
    ((some 5 : Option Nat) = none ∨ true = false →
      TimerCreate (some 5) true [] = (none, [])) :=
  timerCreate_spec (some 5) true []

/-- TimerStart (timer.c, lines 258-278), acting on one node: the current
time is recorded as the arm time (uint64), the period in milliseconds is
multiplied by 1000 and stored in the uint32 period field (so the product is
reduced modulo 2 ^ 32), and the running flag is set. -/
def TimerStart (now : Nat) (period : Nat) (t : tTimerNode) : tTimerNode :=
  { t with
    startTime := now % UINT64_MOD
    period_us := (period * 1000) % UINT32_MOD
    running := true }

/-- TimerStart acting on the registry: the node designated by the handle
(modelled as its position in the list) is updated in place and every other
node is untouched, mirroring the single-node pointer update of the C
code. -/
def TimerStartReg (now period : Nat) : Nat → List tTimerNode → List tTimerNode
  | _, [] => []
  | 0, t :: ts => TimerStart now period t :: ts
  | i + 1, t :: ts => t :: TimerStartReg now period i ts

/-- Counterexample to C7 as stated: the period field of the started timer is
a uint32, so for the period argument 4294968 ms the stored microsecond value
wraps modulo 2 ^ 32 to 704 instead of 4294968 times 1000. -/
theorem timerStart_period_overflow_counterexample :
    (TimerStart 0 4294968 ⟨0, false, 0, 0⟩).period_us ≠ 4294968 * 1000 := by
  decide

/-- C7 as amended: for every valid timer handle, current time below 2 ^ 64
and period whose microsecond equivalent fits a uint32, TimerStart records
the current time as the arm time, stores the period times 1000, and marks
the timer running, overwriting the previous arm time and period and leaving
the callback intact; in the registry exactly the addressed node changes. -/
theorem timerStart_spec (now period : Nat) (t : tTimerNode)
    (i : Nat) (timerList : List tTimerNode)
    (hnow : now < UINT64_MOD) (hperiod : period * 1000 < UINT32_MOD) :
    TimerStart now period t =
      { t with startTime := now, period_us := period * 1000, running := true } ∧
    (∀ j, j ≠ i → (TimerStartReg now period i timerList).get? j = timerList.get? j) ∧
    (∀ u, timerList.get? i = some u →
      (TimerStartReg now period i timerList).get? i = some (TimerStart now period u)) := by
  refine ⟨?_, ?_, ?_⟩
  · unfold TimerStart
    rw [Nat.mod_eq_of_lt hnow, Nat.mod_eq_of_lt hperiod]
  · intro j hj
    induction timerList generalizing i j with
    | nil => cases i <;> rfl
    | cons t ts ih =>
      cases i with
      | zero =>
        cases j with
        | zero => exact absurd rfl hj
        | succ j => rfl
      | succ i =>
        cases j with
        | zero => rfl
        | succ j => exact ih i j (by omega)
  · intro u hu
    induction timerList generalizing i with
    | nil => simp at hu
    | cons t ts ih =>
      cases i with
      | zero =>
        simp only [List.get?] at hu
        cases hu
        rfl
      | succ i => exact ih i hu

/-- Witness for C7: starting the second timer of a two-timer registry with
period 5 ms at time 1000 stores arm time 1000, period 5000 us, marks it
running, and leaves the first timer untouched. -/
theorem timerStart_spec_witness :
    (1000 : Nat) < UINT64_MOD ∧ (5 : Nat) * 1000 < UINT32_MOD ∧
    (TimerStart 1000 5 ⟨9, false, 3, 4⟩ =
      { (⟨9, false, 3, 4⟩ : tTimerNode) with
          startTime := 1000, period_us := 5 * 1000, running := true } ∧
    (∀ j, j ≠ 1 →
      (TimerStartReg 1000 5 1 [⟨8, true, 1, 2⟩, ⟨9, false, 3, 4⟩]).get? j =
        [(⟨8, true, 1, 2⟩ : tTimerNode), ⟨9, false, 3, 4⟩].get? j) ∧
    (∀ u, [(⟨8, true, 1, 2⟩ : tTimerNode), ⟨9, false, 3, 4⟩].get? 1 = some u →
      (TimerStartReg 1000 5 1 [⟨8, true, 1, 2⟩, ⟨9, false, 3, 4⟩]).get? 1 =
        some (TimerStart 1000 5 u))) :=
  ⟨by norm_num [UINT64_MOD], by norm_num [UINT32_MOD],
    timerStart_spec 1000 5 ⟨9, false, 3, 4⟩ 1 [⟨8, true, 1, 2⟩, ⟨9, false, 3, 4⟩]
      (by norm_num [UINT64_MOD]) (by norm_num [UINT32_MOD])⟩

/-! ## CAN driver connection state, from source/lib/can.c -/

/-- Sentinel value of an invalid socket (can.c). -/
def CAN_INVALID_SOCKET : Int := -1

/-- Per-connection global state of the CAN driver (can.c, local data): the
connected flag, the connect-time clock reference, the socket descriptor and
the event-thread-running flag.  The two callback pointers set at CanInit are
modelled separately as boolean presence flags passed to the functions that
consult them. -/
structure CanState where
  canConnected : Bool
  canStartTime : Nat
  canSocket : Int
  canEventThreadRunning : Bool
deriving DecidableEq

/-- The state the driver is in after CanInit or CanDisconnect. -/
def canDisconnectedState : CanState :=
  { canConnected := false
    canStartTime := 0
    canSocket := CAN_INVALID_SOCKET
    canEventThreadRunning := false }

/-- CanDisconnect (can.c, lines 246-272): clears the connected flag, stops
and joins the event thread when running, closes the socket when valid, and
resets all per-connection locals.  The returned list holds the descriptors
closed during the call. -/
def CanDisconnect (st : CanState) : CanState × List Int :=
  (canDisconnectedState,
    if st.canSocket ≠ CAN_INVALID_SOCKET then [st.canSocket] else [])

/-- Outcomes of the system calls made by CanConnect, supplied by the
environment: the return value of socket() (negative on failure, otherwise
the new descriptor), the success of the SIOCGIFINDEX ioctl resolving the
interface name, of the F_SETFL fcntl enabling non-blocking mode, of bind(),
and of thrd_create(), plus the current system time.  The F_GETFL fcntl is
not modelled because its failure only makes the code treat the old flag set
as empty and never fails the connect. -/
structure ConnEnv where
  socketRet : Int
  ioctlOk : Bool
  setflOk : Bool
  bindOk : Bool
  thrdOk : Bool
  now : Nat
deriving DecidableEq

/-- CanConnect (can.c, lines 144-239): force a disconnect, record the
connect-time reference, create the socket (the return value is stored into
canSocket even on failure), then resolve the interface, configure
non-blocking mode, bind, and start the event thread, closing the socket and
reporting failure if any step fails; finally the connected flag is set to
the overall result.  The outputs are the new state, the result, the
descriptor opened by socket() if any, and the descriptors closed during the
call (including one closed by the initial forced disconnect). -/
def CanConnect (st : CanState) (env : ConnEnv) :
    CanState × Bool × Option Int × List Int :=
  let d := CanDisconnect st
  let closed0 := d.2
  let st1 := { d.1 with canStartTime := env.now, canSocket := env.socketRet }
  if env.socketRet < 0 then
    ({ st1 with canConnected := false }, false, none, closed0)
  else if ¬ env.ioctlOk then
    ({ st1 with canConnected := false }, false, some env.socketRet,
      closed0 ++ [env.socketRet])
  else if ¬ env.setflOk then
    ({ st1 with canConnected := false }, false, some env.socketRet,
      closed0 ++ [env.socketRet])
  else if ¬ env.bindOk then
    ({ st1 with canConnected := false }, false, some env.socketRet,
      closed0 ++ [env.socketRet])
  else if ¬ env.thrdOk then
    ({ st1 with canConnected := false }, false, some env.socketRet,
      closed0 ++ [env.socketRet])
  else
    ({ st1 with canConnected := true, canEventThreadRunning := true }, true,
      some env.socketRet, closed0)

/-- Counterexample to C4 as stated: starting from the disconnected state,
a CanConnect at time 5 that opens descriptor 3 and then fails to resolve
the interface name returns failure, but the driver state is not the state
from before the call: the start-time reference keeps the value 5 and the
socket field keeps the stale (closed) descriptor 3 instead of the invalid
sentinel. -/
theorem canConnect_partial_state_counterexample :
    (CanConnect canDisconnectedState
        { socketRet := 3, ioctlOk := false, setflOk := true, bindOk := true,
          thrdOk := true, now := 5 }).1 ≠ canDisconnectedState := by
  decide

/-- C4 as amended: whenever any step of CanConnect fails, the call returns
false, the connected flag is false, the event thread is not left running,
and any descriptor opened by the call is closed before returning; however
the start-time reference and the socket descriptor field keep the values
from the failed attempt instead of being reset to the disconnected state. -/
theorem canConnect_failure_cleanup (st : CanState) (env : ConnEnv)
    (hfail : env.socketRet < 0 ∨ env.ioctlOk = false ∨ env.setflOk = false ∨
      env.bindOk = false ∨ env.thrdOk = false) :
    (CanConnect st env).2.1 = false ∧
    (CanConnect st env).1.canConnected = false ∧
    (CanConnect st env).1.canEventThreadRunning = false ∧
    (∀ fd, (CanConnect st env).2.2.1 = some fd → fd ∈ (CanConnect st env).2.2.2) := by
  by_cases h1 : env.socketRet < 0
  · simp only [CanConnect, CanDisconnect, canDisconnectedState]
    rw [if_pos h1]
    exact ⟨rfl, rfl, rfl, fun fd hfd => nomatch hfd⟩
  · by_cases h2 : env.ioctlOk
    · by_cases h3 : env.setflOk
      · by_cases h4 : env.bindOk
        · by_cases h5 : env.thrdOk
          · exact absurd hfail (by simp [h1, h2, h3, h4, h5])
          · simp only [CanConnect, CanDisconnect, canDisconnectedState]
            rw [if_neg h1]
            refine ⟨?_, ?_, ?_, fun fd hfd => ?_⟩ <;> simp_all
        · simp only [CanConnect, CanDisconnect, canDisconnectedState]
          rw [if_neg h1]
          refine ⟨?_, ?_, ?_, fun fd hfd => ?_⟩ <;> simp_all
      · simp only [CanConnect, CanDisconnect, canDisconnectedState]
        rw [if_neg h1]
        refine ⟨?_, ?_, ?_, fun fd hfd => ?_⟩ <;> simp_all
    · simp only [CanConnect, CanDisconnect, canDisconnectedState]
      rw [if_neg h1]
      refine ⟨?_, ?_, ?_, fun fd hfd => ?_⟩ <;> simp_all

/-- Witness for amended C4: a connect attempt from the disconnected state
that opens descriptor 3 and fails at the ioctl returns false, leaves the
flag false and the thread stopped, and closes descriptor 3. -/
theorem canConnect_failure_cleanup_witness :
    ((3 : Int) < 0 ∨ false = false ∨ true = false ∨ true = false ∨ true = false) ∧
    ((CanConnect canDisconnectedState
        { socketRet := 3, ioctlOk := false, setflOk := true, bindOk := true,
          thrdOk := true, now := 5 }).2.1 = false ∧
     (CanConnect canDisconnectedState
        { socketRet := 3, ioctlOk := false, setflOk := true, bindOk := true,
          thrdOk := true, now := 5 }).1.canConnected = false ∧
     (CanConnect canDisconnectedState
        { socketRet := 3, ioctlOk := false, setflOk := true, bindOk := true,
          thrdOk := true, now := 5 }).1.canEventThreadRunning = false ∧
     (∀ fd, (CanConnect canDisconnectedState
        { socketRet := 3, ioctlOk := false, setflOk := true, bindOk := true,
          thrdOk := true, now := 5 }).2.2.1 = some fd →
       fd ∈ (CanConnect canDisconnectedState
        { socketRet := 3, ioctlOk := false, setflOk := true, bindOk := true,
          thrdOk := true, now := 5 }).2.2.2)) :=
  ⟨Or.inr (Or.inl rfl),
    canConnect_failure_cleanup canDisconnectedState
      { socketRet := 3, ioctlOk := false, setflOk := true, bindOk := true,
        thrdOk := true, now := 5 } (Or.inr (Or.inl rfl))⟩

/-- Result of one CanTransmit call: the boolean result, the driver state
after the call, the wire frame handed to write() if a write was attempted,
and the message handed to the transmit-confirmation callback if it was
invoked. -/
structure TxOutcome where
  result : Bool
  state : CanState
  wireWrite : Option can_frame
  cbMsg : Option tCanMsg

/-- CanTransmit (can.c, lines 281-332): when disconnected the call fails at
once, with no write and no callback; when connected the caller frame is
copied, the wire frame is built by canTxEncode, the timestamp of the copy is
set to now minus the connect-time reference (uint64 subtraction), the wire
frame is written (writeOk tells whether the write returned the full frame
size), and on success the copy is handed to the transmit-confirmation
callback when one is registered (txCallbackSet).  The driver state is never
modified by the call. -/
def CanTransmit (st : CanState) (txCallbackSet : Bool) (msg : tCanMsg)
    (now : Nat) (writeOk : Bool) (uninit : Fin 8 → Nat) : TxOutcome :=
  if st.canConnected then
    let txMsg := { msg with timestamp := sub64 now st.canStartTime }
    let wire := canTxEncode msg uninit
    if writeOk then
      { result := true, state := st, wireWrite := some wire,
        cbMsg := if txCallbackSet then some txMsg else none }
    else
      { result := false, state := st, wireWrite := some wire, cbMsg := none }
  else
    { result := false, state := st, wireWrite := none, cbMsg := none }

/-- C3: for every frame, CanTransmit on a driver that is not connected
returns failure, attempts no write to the socket, leaves the driver state
unchanged, and invokes no transmit-confirmation callback. -/
theorem canTransmit_disconnected (st : CanState) (txCallbackSet : Bool)
    (msg : tCanMsg) (now : Nat) (writeOk : Bool) (uninit : Fin 8 → Nat)
    (hdisc : st.canConnected = false) :
    CanTransmit st txCallbackSet msg now writeOk uninit =
      { result := false, state := st, wireWrite := none, cbMsg := none } := by
  unfold CanTransmit
  rw [hdisc]
  rfl

/-- Witness for C3: transmitting on the never-connected initial state fails
with no write, no state change and no callback. -/
theorem canTransmit_disconnected_witness :
    canDisconnectedState.canConnected = false ∧
    CanTransmit canDisconnectedState true ⟨0x123, false, 1, fun _ => 0xAA, 0⟩ 99 true
        (fun _ => 0) =
      { result := false, state := canDisconnectedState, wireWrite := none,
        cbMsg := none } :=
  ⟨rfl, canTransmit_disconnected canDisconnectedState true
    ⟨0x123, false, 1, fun _ => 0xAA, 0⟩ 99 true (fun _ => 0) rfl⟩

/-- C10: on a successful CanTransmit with a registered callback, the frame
handed to the transmit-confirmation callback is a field-for-field copy of
the input frame with only the timestamp replaced by the write time relative
to connect time: id, extended flag, length and all 8 data-buffer bytes are
the ones of the input, and the length is not clamped even when it exceeds 8,
while the wire frame written carries the clamped data length code.  The
driver state is unchanged, and the input frame itself, being passed by
value, is untouched. -/
theorem canTransmit_callback_frame (st : CanState) (msg : tCanMsg)
    (now : Nat) (uninit : Fin 8 → Nat)
    (hconn : st.canConnected = true) :
    (CanTransmit st true msg now true uninit).result = true ∧
    (CanTransmit st true msg now true uninit).state = st ∧
    (CanTransmit st true msg now true uninit).cbMsg =
      some { msg with timestamp := sub64 now st.canStartTime } ∧
    (CanTransmit st true msg now true uninit).wireWrite =
      some (canTxEncode msg uninit) ∧
    (canTxEncode msg uninit).can_dlc = min msg.len 8 := by
  unfold CanTransmit
  rw [hconn]
  refine ⟨rfl, rfl, rfl, rfl, ?_⟩
  simp only [canTxEncode, CAN_DATA_LEN_MAX]
  split <;> omega

/-- A connected driver state used as concrete input. -/
def connectedStateEx : CanState :=
  { canConnected := true, canStartTime := 100, canSocket := 4,
    canEventThreadRunning := true }

/-- A frame whose length field 9 exceeds the 8-byte payload buffer. -/
def msgLen9Ex : tCanMsg :=
  ⟨0x7FF, false, 9, fun i => (i : Nat), 0⟩

/-- Witness for C10: a connected driver transmitting a frame whose length
field is 9 reports the callback frame with length still 9 and every data
byte intact, while the wire frame carries the clamped data length code 8. -/
theorem canTransmit_callback_frame_witness :
    connectedStateEx.canConnected = true ∧
    ((CanTransmit connectedStateEx true msgLen9Ex 250 true (fun _ => 0)).result = true ∧
     (CanTransmit connectedStateEx true msgLen9Ex 250 true (fun _ => 0)).state =
       connectedStateEx ∧
     (CanTransmit connectedStateEx true msgLen9Ex 250 true (fun _ => 0)).cbMsg =
       some { msgLen9Ex with timestamp := sub64 250 connectedStateEx.canStartTime } ∧
     (CanTransmit connectedStateEx true msgLen9Ex 250 true (fun _ => 0)).wireWrite =
       some (canTxEncode msgLen9Ex (fun _ => 0)) ∧
     (canTxEncode msgLen9Ex (fun _ => 0)).can_dlc = min msgLen9Ex.len 8) :=
  ⟨rfl, canTransmit_callback_frame connectedStateEx msgLen9Ex 250 (fun _ => 0) rfl⟩

/-! ## Text output of CanPrintMessage, from source/lib/can.c lines 340-356

The C code prints the timestamp with printf("(%.6f)", (float)msg->timestamp
/ (1000 * 1000)): the uint64 microsecond count is converted to IEEE binary32
(single precision, round to nearest, ties to even), divided by the exactly
representable constant 10 ^ 6 with correct rounding, and the resulting value
is rendered with six fractional digits by correct decimal rounding.  The
model below follows those three rounding steps exactly, computing with
natural numbers: a binary32 value is represented by its integer significand
scaled by a power of two. -/

/-- Round the ratio a / b to the nearest natural number, ties to even: the
rounding used by each step of the float pipeline. -/
def rndNatRatNE (a b : Nat) : Nat :=
  let f := a / b
  let r := a % b
  if 2 * r < b then f
  else if b < 2 * r then f + 1
  else if f % 2 = 0 then f else f + 1

/-- Number of binary digits of n, fuel-bounded recursion written with the
bare recursor so that kernel evaluation of concrete inputs stays small. -/
def bitLenAux (fuel : Nat) : Nat → Nat :=
  @Nat.rec (fun _ => Nat → Nat) (fun _ => 0)
    (fun _fuel ih n => if n = 0 then 0 else ih (n / 2) + 1) fuel

/-- Number of binary digits of n (fuel 64 covers every uint64 value). -/
def bitLen (n : Nat) : Nat := bitLenAux 64 n

/-- Smallest k with m * 2 ^ k at least 10 ^ 6, fuel-bounded: the magnitude
of the negative binary exponent of m / 10 ^ 6 when m < 10 ^ 6. -/
def negExpAux (fuel : Nat) : Nat → Nat :=
  @Nat.rec (fun _ => Nat → Nat) (fun _ => 1)
    (fun _fuel ih m => if 1000000 ≤ 2 * m then 1 else ih (2 * m) + 1) fuel

/-- Magnitude of the negative binary exponent of f1 / 10 ^ 6 (fuel 24 covers
every nonzero argument, since 2 ^ 20 exceeds 10 ^ 6). -/
def negExp (f1 : Nat) : Nat := negExpAux 24 f1

/-- Conversion of the uint64 timestamp to binary32, as performed by the C
cast (float)msg->timestamp: integers below 2 ^ 24 are exact; larger ones are
rounded to 24 significant bits, nearest, ties to even. -/
def floatCastU64 (ts : Nat) : Nat :=
  if ts < 2 ^ 24 then ts
  else
    let s := bitLen ts - 24
    rndNatRatNE ts (2 ^ s) * 2 ^ s

/-- The microsecond count printed by printf %.6f for the value
(float)ts / 1000000: the binary32 cast of ts is divided by 10 ^ 6 with
correct binary32 rounding (24-bit significand at binary exponent e), and the
quotient is scaled back to microseconds with correct decimal rounding. -/
def printedMicros (ts : Nat) : Nat :=
  let f1 := floatCastU64 ts
  if f1 = 0 then 0
  else if f1 < 1000000 then
    let k := negExp f1
    let m := rndNatRatNE (f1 * 2 ^ (23 + k)) 1000000
    rndNatRatNE (m * 1000000) (2 ^ (23 + k))
  else
    let e := bitLen (f1 / 1000000) - 1
    if e ≤ 23 then
      let m := rndNatRatNE (f1 * 2 ^ (23 - e)) 1000000
      rndNatRatNE (m * 1000000) (2 ^ (23 - e))
    else
      let m := rndNatRatNE f1 (1000000 * 2 ^ (e - 23))
      m * 2 ^ (e - 23) * 1000000

/-! ### Rounding lemmas -/

/-- The nearest-even rounding of a / b differs from the exact ratio by at
most one half. -/
theorem rndNatRatNE_close (a b : Nat) (hb : 0 < b) :
    |(rndNatRatNE a b : ℚ) - (a : ℚ) / b| ≤ 1 / 2 := by
  have hb' : (0 : ℚ) < b := by exact_mod_cast hb
  have hbne : (b : ℚ) ≠ 0 := ne_of_gt hb'
  have habQ : (b : ℚ) * (↑(a / b) : ℚ) + (↑(a % b) : ℚ) = (a : ℚ) := by
    exact_mod_cast Nat.div_add_mod a b
  have hcast : (a : ℚ) / b = (↑(a / b) : ℚ) + (↑(a % b) : ℚ) / b := by
    rw [← habQ]
    field_simp
    ring
  have hrpos : (0 : ℚ) ≤ (↑(a % b) : ℚ) / b := by positivity
  simp only [rndNatRatNE]
  split_ifs with h1 h2 h3
  · have hlt : (↑(a % b) : ℚ) / b < 1 / 2 := by
      rw [div_lt_iff₀ hb']
      have : ((2 * (a % b) : Nat) : ℚ) < (b : ℚ) := by exact_mod_cast h1
      push_cast at this
      linarith
    rw [hcast, abs_le]
    constructor <;> linarith
  · have hge : 1 / 2 < (↑(a % b) : ℚ) / b := by
      rw [lt_div_iff₀ hb']
      have : (b : ℚ) < ((2 * (a % b) : Nat) : ℚ) := by exact_mod_cast h2
      push_cast at this
      linarith
    have hrlt : (↑(a % b) : ℚ) / b < 1 := by
      rw [div_lt_one hb']
      exact_mod_cast Nat.mod_lt a hb
    rw [hcast, abs_le]
    constructor <;> push_cast <;> linarith
  · have heq : (↑(a % b) : ℚ) / b = 1 / 2 := by
      have h2r : ((2 * (a % b) : Nat) : ℚ) = (b : ℚ) := by
        exact_mod_cast le_antisymm (Nat.not_lt.mp h2) (Nat.not_lt.mp h1)
      push_cast at h2r
      rw [div_eq_iff hbne]
      linarith
    rw [hcast, heq, abs_le]
    constructor <;> linarith
  · have heq : (↑(a % b) : ℚ) / b = 1 / 2 := by
      have h2r : ((2 * (a % b) : Nat) : ℚ) = (b : ℚ) := by
        exact_mod_cast le_antisymm (Nat.not_lt.mp h2) (Nat.not_lt.mp h1)
      push_cast at h2r
      rw [div_eq_iff hbne]
      linarith
    rw [hcast, heq, abs_le]
    constructor <;> push_cast <;> linarith

/-- When the exact ratio a / b lies strictly within one half of the natural
number n, the nearest-even rounding returns n. -/
theorem rndNatRatNE_eq_of_close (a b n : Nat) (hb : 0 < b)
    (h : |(a : ℚ) / b - n| < 1 / 2) : rndNatRatNE a b = n := by
  have hb' : (0 : ℚ) < b := by exact_mod_cast hb
  have hbne : (b : ℚ) ≠ 0 := ne_of_gt hb'
  have habQ : (b : ℚ) * (↑(a / b) : ℚ) + (↑(a % b) : ℚ) = (a : ℚ) := by
    exact_mod_cast Nat.div_add_mod a b
  have hcast : (a : ℚ) / b = (↑(a / b) : ℚ) + (↑(a % b) : ℚ) / b := by
    rw [← habQ]
    field_simp
    ring
  rw [hcast, abs_lt] at h
  obtain ⟨hlo, hhi⟩ := h
  have hrpos : (0 : ℚ) ≤ (↑(a % b) : ℚ) / b := by positivity
  have hrlt : (↑(a % b) : ℚ) / b < 1 := by
    rw [div_lt_one hb']
    exact_mod_cast Nat.mod_lt a hb
  simp only [rndNatRatNE]
  split_ifs with h1 h2 h3
  · have hltr : (↑(a % b) : ℚ) / b < 1 / 2 := by
      rw [div_lt_iff₀ hb']
      have : ((2 * (a % b) : Nat) : ℚ) < (b : ℚ) := by exact_mod_cast h1
      push_cast at this
      linarith
    have hq1 : ((a / b : Nat) : ℚ) < (n : ℚ) + 1 := by linarith
    have hq2 : (n : ℚ) < ((a / b : Nat) : ℚ) + 1 := by linarith
    have hn1 : a / b < n + 1 := by exact_mod_cast hq1
    have hn2 : n < a / b + 1 := by exact_mod_cast hq2
    omega
  · have hgtr : 1 / 2 < (↑(a % b) : ℚ) / b := by
      rw [lt_div_iff₀ hb']
      have : (b : ℚ) < ((2 * (a % b) : Nat) : ℚ) := by exact_mod_cast h2
      push_cast at this
      linarith
    have hq1 : ((a / b : Nat) : ℚ) < (n : ℚ) := by linarith
    have hq2 : (n : ℚ) < ((a / b : Nat) : ℚ) + 2 := by linarith
    have hn1 : a / b < n := by exact_mod_cast hq1
    have hn2 : n < a / b + 2 := by exact_mod_cast hq2
    omega
  · exfalso
    have heq : (↑(a % b) : ℚ) / b = 1 / 2 := by
      have h2r : ((2 * (a % b) : Nat) : ℚ) = (b : ℚ) := by
        exact_mod_cast le_antisymm (Nat.not_lt.mp h2) (Nat.not_lt.mp h1)
      push_cast at h2r
      rw [div_eq_iff hbne]
      linarith
    rw [heq] at hlo hhi
    have hq1 : ((a / b : Nat) : ℚ) < (n : ℚ) := by linarith
    have hq2 : (n : ℚ) < ((a / b : Nat) : ℚ) + 1 := by linarith
    have hn1 : a / b < n := by exact_mod_cast hq1
    have hn2 : n < a / b + 1 := by exact_mod_cast hq2
    omega
  · exfalso
    have heq : (↑(a % b) : ℚ) / b = 1 / 2 := by
      have h2r : ((2 * (a % b) : Nat) : ℚ) = (b : ℚ) := by
        exact_mod_cast le_antisymm (Nat.not_lt.mp h2) (Nat.not_lt.mp h1)
      push_cast at h2r
      rw [div_eq_iff hbne]
      linarith
    rw [heq] at hlo hhi
    have hq1 : ((a / b : Nat) : ℚ) < (n : ℚ) := by linarith
    have hq2 : (n : ℚ) < ((a / b : Nat) : ℚ) + 1 := by linarith
    have hn1 : a / b < n := by exact_mod_cast hq1
    have hn2 : n < a / b + 1 := by exact_mod_cast hq2
    omega

/-- Any number below 2 ^ m has at most m binary digits. -/
theorem bitLenAux_le (fuel : Nat) : ∀ n m : Nat, n < 2 ^ m → bitLenAux fuel n ≤ m := by
  induction fuel with
  | zero => intro n m _; exact Nat.zero_le m
  | succ f ih =>
    intro n m h
    show (if n = 0 then 0 else bitLenAux f (n / 2) + 1) ≤ m
    by_cases h0 : n = 0
    · simp [h0]
    · rw [if_neg h0]
      cases m with
      | zero =>
        exfalso
        have : n < 1 := by simpa using h
        omega
      | succ m2 =>
        have hdiv : n / 2 < 2 ^ m2 := by
          rw [Nat.div_lt_iff_lt_mul (by norm_num)]
          calc n < 2 ^ (m2 + 1) := h
          _ = 2 ^ m2 * 2 := by rw [pow_succ]
        exact Nat.succ_le_succ (ih (n / 2) m2 hdiv)

/-- The negative-exponent search always returns at least one. -/
theorem negExpAux_pos (fuel : Nat) : ∀ m : Nat, 1 ≤ negExpAux fuel m := by
  induction fuel with
  | zero => intro m; exact le_refl 1
  | succ f ih =>
    intro m
    show 1 ≤ (if 1000000 ≤ 2 * m then 1 else negExpAux f (2 * m) + 1)
    split
    · exact le_refl 1
    · omega

/-- Double-rounding identity behind the exactness of the printed timestamp:
dividing n * S by 10 ^ 6 with nearest-even rounding and scaling the quotient
back to microseconds with nearest-even rounding returns exactly n whenever
the intermediate scale S exceeds 10 ^ 6. -/
theorem double_round_exact (n S : Nat) (hS : 1000000 < S) :
    rndNatRatNE (rndNatRatNE (n * S) 1000000 * 1000000) S = n := by
  have hS0 : 0 < S := by omega
  have hSq : (0 : ℚ) < S := by exact_mod_cast hS0
  have hSne : (S : ℚ) ≠ 0 := ne_of_gt hSq
  have hb1 := rndNatRatNE_close (n * S) 1000000 (by norm_num)
  apply rndNatRatNE_eq_of_close _ _ _ hS0
  have key : ((rndNatRatNE (n * S) 1000000 * 1000000 : Nat) : ℚ) / S - n =
      ((rndNatRatNE (n * S) 1000000 : ℚ) - ((n * S : Nat) : ℚ) / 1000000) *
        (1000000 / S) := by
    push_cast
    field_simp
    ring
  rw [key, abs_mul, abs_of_pos (by positivity : (0 : ℚ) < 1000000 / S)]
  have hfrac : (1000000 : ℚ) / S < 1 := by
    rw [div_lt_one hSq]
    exact_mod_cast hS
  have hstep : |(rndNatRatNE (n * S) 1000000 : ℚ) - ((n * S : Nat) : ℚ) / 1000000| *
      (1000000 / S) ≤ (1 / 2) * (1000000 / S) :=
    mul_le_mul_of_nonneg_right hb1 (by positivity)
  calc |(rndNatRatNE (n * S) 1000000 : ℚ) - ((n * S : Nat) : ℚ) / 1000000| *
      (1000000 / S) ≤ (1 / 2) * (1000000 / S) := hstep
  _ < 1 / 2 := by nlinarith

/-- For timestamps below 16 * 10 ^ 6 microseconds, the microsecond count
printed by the float pipeline equals the timestamp exactly: the binary32
cast is exact below 2 ^ 24 and both rounding errors of the division stay
under half a microsecond. -/
theorem printedMicros_exact (ts : Nat) (h : ts < 16000000) :
    printedMicros ts = ts := by
  have hcast : floatCastU64 ts = ts := by
    unfold floatCastU64
    rw [if_pos (lt_of_lt_of_le h (by norm_num))]
  simp only [printedMicros, hcast]
  by_cases h0 : ts = 0
  · subst h0; rfl
  · rw [if_neg h0]
    by_cases h1 : ts < 1000000
    · rw [if_pos h1]
      refine double_round_exact ts (2 ^ (23 + negExp ts)) ?_
      have hk : 1 ≤ negExp ts := negExpAux_pos 24 ts
      calc (1000000 : Nat) < 2 ^ 24 := by norm_num
      _ ≤ 2 ^ (23 + negExp ts) := Nat.pow_le_pow_right (by norm_num) (by omega)
    · rw [if_neg h1]
      have hd : ts / 1000000 < 2 ^ 4 := by
        have h16 : ts / 1000000 < 16 := by omega
        exact lt_of_lt_of_le h16 (by norm_num)
      have hbl : bitLen (ts / 1000000) ≤ 4 := bitLenAux_le 64 (ts / 1000000) 4 hd
      have he : bitLen (ts / 1000000) - 1 ≤ 3 := by omega
      rw [if_pos (le_trans he (by norm_num))]
      refine double_round_exact ts (2 ^ (23 - (bitLen (ts / 1000000) - 1))) ?_
      calc (1000000 : Nat) < 2 ^ 20 := by norm_num
      _ ≤ 2 ^ (23 - (bitLen (ts / 1000000) - 1)) :=
        Nat.pow_le_pow_right (by norm_num) (by omega)

/-! ### String rendering of CanPrintMessage -/

/-- One lowercase hexadecimal digit, as produced by printf %x / %02x. -/
def hexDigitChar (n : Nat) : Char :=
  if n < 10 then Char.ofNat (48 + n) else Char.ofNat (87 + n)

/-- Hexadecimal digits of n, most significant first, fuel-bounded (fuel 16
covers every uint64 value). -/
def natToHexAux (fuel : Nat) : Nat → List Char :=
  @Nat.rec (fun _ => Nat → List Char) (fun _ => [])
    (fun _fuel ih n => if n = 0 then [] else ih (n / 16) ++ [hexDigitChar (n % 16)])
    fuel

/-- printf %x rendering of the identifier: lowercase hexadecimal, no
padding, a single zero digit for zero. -/
def natToHex (n : Nat) : String :=
  if n = 0 then "0" else String.mk (natToHexAux 16 n)

/-- printf %02x rendering of one data byte: exactly two lowercase
hexadecimal digits. -/
def byteHex2 (n : Nat) : String :=
  String.mk [hexDigitChar (n / 16 % 16), hexDigitChar (n % 16)]

/-- Zero padding of the microsecond fraction to six digits, as %.6f does. -/
def pad6 (n : Nat) : String :=
  let s := toString n
  String.mk (List.replicate (6 - s.length) (Char.ofNat 48)) ++ s

/-- The seconds field printed by printf("(%.6f)", (float)ts / (1000*1000)):
integer seconds, a dot, and the six-digit microsecond fraction of the
rounded value computed by printedMicros. -/
def canPrintSeconds (ts : Nat) : String :=
  toString (printedMicros ts / 1000000) ++ "." ++ pad6 (printedMicros ts % 1000000)

/-- The full line written by CanPrintMessage (can.c, lines 340-356): the
parenthesized timestamp in seconds, a space, the identifier in hexadecimal,
the character x when the extended flag is set and a space otherwise, the
payload length in brackets, each of the first len data bytes as two
hexadecimal digits preceded by a space, and the line ending. -/
def CanPrintMessage (msg : tCanMsg) : String :=
  "(" ++ canPrintSeconds msg.timestamp ++ ")" ++
  " " ++ natToHex msg.id ++
  (if msg.ext then "x" else " ") ++
  " [" ++ toString msg.len ++ "]" ++
  String.join ((((List.finRange 8).map msg.data).take msg.len).map
    (fun b => " " ++ byteHex2 b)) ++
  "\n"

/-- Counterexample to C8 as stated: the timestamp is printed through a
single-precision float, so for the frame with timestamp 16777217
microseconds (one past 2 ^ 24) the line shows the seconds field 16.777216,
not the full-microsecond-precision value 16.777217: the cast rounds the
significand to 24 bits. -/
theorem CanPrintMessage_precision_counterexample :
    CanPrintMessage ⟨1, false, 0, fun _ => 0, 16777217⟩ = "(16.777216) 1  [0]\n" ∧
    CanPrintMessage ⟨1, false, 0, fun _ => 0, 16777217⟩ ≠ "(16.777217) 1  [0]\n" := by
  constructor
  · decide
  · decide

/-- C8 as amended: CanPrintMessage writes exactly one line of the form
(seconds.6-digit-micros) hex-id, an x exactly when the extended flag is set
and a space otherwise, the data length in brackets, and each of the first
len data bytes as two hexadecimal digits; the timestamp field carries full
microsecond precision whenever the timestamp is below 16 * 10 ^ 6
microseconds, while beyond 2 ^ 24 microseconds the single-precision float
conversion can lose the low microsecond digits. -/
theorem CanPrintMessage_format (msg : tCanMsg) (hts : msg.timestamp < 16000000) :
    CanPrintMessage msg =
      "(" ++ (toString (msg.timestamp / 1000000) ++ "." ++
        pad6 (msg.timestamp % 1000000)) ++ ")" ++
      " " ++ natToHex msg.id ++
      (if msg.ext then "x" else " ") ++
      " [" ++ toString msg.len ++ "]" ++
      String.join ((((List.finRange 8).map msg.data).take msg.len).map
        (fun b => " " ++ byteHex2 b)) ++
      "\n" := by
  unfold CanPrintMessage canPrintSeconds
  rw [printedMicros_exact msg.timestamp hts]

/-- A frame used as concrete input of the format witness. -/
def msgPrintEx : tCanMsg :=
  ⟨0x1A, true, 2,
    fun i => if (i : Nat) = 0 then 0xDE else if (i : Nat) = 1 then 0xAD else 0,
    1500000⟩

/-- Witness for amended C8: the extended frame with id 0x1A, two data bytes
0xDE 0xAD and timestamp 1.5 s prints with exact microsecond precision, and
the line indeed reads (1.500000) 1ax [2] de ad. -/
theorem CanPrintMessage_format_witness :
    msgPrintEx.timestamp < 16000000 ∧
    CanPrintMessage msgPrintEx =
      "(" ++ (toString (msgPrintEx.timestamp / 1000000) ++ "." ++
        pad6 (msgPrintEx.timestamp % 1000000)) ++ ")" ++
      " " ++ natToHex msgPrintEx.id ++
      (if msgPrintEx.ext then "x" else " ") ++
      " [" ++ toString msgPrintEx.len ++ "]" ++
      String.join ((((List.finRange 8).map msgPrintEx.data).take msgPrintEx.len).map
        (fun b => " " ++ byteHex2 b)) ++
      "\n" ∧
    CanPrintMessage msgPrintEx = "(1.500000) 1ax [2] de ad\n" :=
  ⟨by norm_num [msgPrintEx], CanPrintMessage_format msgPrintEx (by norm_num [msgPrintEx]),
    by decide⟩
